import Mathlib

/-!
Verification of the quant_engine core against its specification.

The C++ sources are shallowly embedded:
* `double` prices and P&L are modelled as exact rationals (`ℚ`); the code
  performs no operation that is value-dependent on floating-point rounding
  in the properties below, and all validity checks (`std::isfinite`) are
  vacuously true over `ℚ`.
* `int32_t` / `int64_t` quantities and counters are modelled as unbounded
  integers (`Int` / `Nat`); none of the verified properties exercises
  wrap-around, and signed overflow is undefined behaviour in the source.
* `std::multiset` order books are modelled as lists kept in comparator
  order, with `insert` placing a new element after all equivalent ones
  (the `std::multiset::insert` contract); the id → iterator back-indexes
  are modelled by first-occurrence search, which coincides with the real
  index on every store whose sides hold at most one entry per id (the
  invariant the defensive erase in `emplace` maintains).
* Exceptions become `Except`, `std::optional`/null pointers become `Option`.
-/

namespace QuantEngine

/-! ## Event model — `include/events/event.hpp` (current, five-variant version) -/

/-- `events::market_event`: new market data. -/
structure market_event where
  symbol : String
  price : ℚ
  qty : ℚ
  timestamp_ms : Int
  is_buyer_match : Bool
deriving DecidableEq

/-- `events::signal_event`: strategy signal; no payload in the source. -/
structure signal_event where
deriving DecidableEq

/-- `events::order_type` enumeration. -/
inductive order_type where
  | Market
  | Limit
  | StopMarket
  | StopLimit
deriving DecidableEq

/-- `events::order_event`: immutable order submitted to the market.
`flags` models the `order_flags` bitmask; `timestamp` models the
`system_clock::time_point`; `trigger` is the originating market event. -/
structure order_event where
  symbol : String
  order_id : String
  quantity : Int
  is_buy : Bool
  price : ℚ
  otype : order_type
  flags : Nat
  timestamp : Int
  trigger : market_event
deriving DecidableEq

/-- `events::fill_event`: execution result carrying the originating order. -/
structure fill_event where
  symbol : String
  order_id : String
  filled_qty : Int
  order_qty : Int
  is_buy : Bool
  fill_price : ℚ
  originating_order : order_event
  timestamp : Int
deriving DecidableEq

/-- `events::cancel_event`: cancelled order with reason. -/
structure cancel_event where
  originating_order : order_event
  reason : String
  timestamp : Int
deriving DecidableEq

/-- `events::event = std::variant<market, signal, order, fill, cancel>`. -/
inductive event where
  | market (m : market_event)
  | signal (s : signal_event)
  | order (o : order_event)
  | fill (f : fill_event)
  | cancel (c : cancel_event)
deriving DecidableEq

/-! ## Event queue — `src/events/event_queue.cpp` -/

/-- The single error the queue can raise: `throw std::runtime_error("Queue empty!")`. -/
inductive queue_error where
  | QueueEmpty
deriving DecidableEq

/-- `event_queue` wraps a `std::queue<event>`: front of the list is the head. -/
structure event_queue where
  queue : List event
deriving DecidableEq

namespace event_queue

/-- `event_queue::push`: append at the back. -/
def push (q : event_queue) (ev : event) : event_queue :=
  ⟨q.queue ++ [ev]⟩

/-- `event_queue::pop`: throw `QueueEmpty` when empty, else return and
remove the front element. -/
def pop (q : event_queue) : Except queue_error (event × event_queue) :=
  match q.queue with
  | [] => .error .QueueEmpty
  | e :: rest => .ok (e, ⟨rest⟩)

/-- `event_queue::empty`. -/
def empty (q : event_queue) : Bool :=
  q.queue.isEmpty

/-- `event_queue::size`. -/
def size (q : event_queue) : Nat :=
  q.queue.length

end event_queue

/-! An interleaving of queue operations, used to state the FIFO guarantee. -/

/-- One operation on the event queue. -/
inductive queue_op where
  | push (ev : event)
  | pop
deriving DecidableEq

/-- Observable outcome of running a sequence of operations: the queue
itself, the events returned by successful pops in order, and the number
of pops that raised `QueueEmpty` (a raised pop leaves the queue as it was). -/
structure queue_run where
  q : event_queue
  popped : List event
  raised : Nat
deriving DecidableEq

/-- Execute one operation. -/
def run_op (st : queue_run) : queue_op → queue_run
  | .push ev => { st with q := st.q.push ev }
  | .pop =>
    match st.q.pop with
    | .error _ => { st with raised := st.raised + 1 }
    | .ok (e, q') => { q := q', popped := st.popped ++ [e], raised := st.raised }

/-- Execute a whole interleaving starting from the empty queue. -/
def run_ops (ops : List queue_op) : queue_run :=
  ops.foldl run_op ⟨⟨[]⟩, [], 0⟩

/-- The sequence of events pushed by an interleaving, in push order. -/
def pushed_events (ops : List queue_op) : List event :=
  ops.filterMap fun op =>
    match op with
    | .push ev => some ev
    | .pop => none

/-! ## Order state — `include/orders/order_state.hpp` (current version) -/

/-- `orders::order_state`: immutable originating order plus mutable fill
progress. -/
structure order_state where
  order : order_event
  filled_qty : Int
  avg_fill_price : ℚ
deriving DecidableEq

/-- The one-argument `order_state` constructor used by
`order_queue::emplace(order_event)` and `emit_fill`: filled = 0, avg = 0. -/
def order_state.of_order (o : order_event) : order_state :=
  ⟨o, 0, 0⟩

/-! ## Order store — `include/orders/order_queue.hpp`, `src/orders/order_queue.cpp` -/

/-- `order_queue::bid_cmp`: higher price first, earlier timestamp on ties. -/
def bid_cmp (lhs rhs : order_state) : Bool :=
  if lhs.order.price ≠ rhs.order.price then
    rhs.order.price < lhs.order.price
  else
    lhs.order.timestamp < rhs.order.timestamp

/-- `order_queue::ask_cmp`: lower price first, earlier timestamp on ties. -/
def ask_cmp (lhs rhs : order_state) : Bool :=
  if lhs.order.price ≠ rhs.order.price then
    lhs.order.price < rhs.order.price
  else
    lhs.order.timestamp < rhs.order.timestamp

/-- Does this state carry the given order id? -/
def id_matches (id : String) (s : order_state) : Bool :=
  s.order.order_id == id

/-- Whether some element of the list carries the id (models the back-index
lookup `index_.find(id) != index_.end()`). -/
def has_id (id : String) (l : List order_state) : Bool :=
  l.any (id_matches id)

/-- First element carrying the id (models dereferencing the indexed iterator). -/
def find_id (id : String) (l : List order_state) : Option order_state :=
  l.find? (id_matches id)

/-- Number of elements carrying the id. -/
def count_id (id : String) (l : List order_state) : Nat :=
  l.countP (fun s => id_matches id s)

/-- Erase the first element carrying the id (models `set.erase(it->second)`;
identical to it whenever the side holds at most one entry per id). -/
def erase_first_id (id : String) : List order_state → List order_state
  | [] => []
  | x :: xs => if id_matches id x then xs else x :: erase_first_id id xs

/-- Rewrite the first element carrying the id in place (models a field
mutation through the pointer `order_queue::get` returned). -/
def modify_first_id (id : String) (f : order_state → order_state) :
    List order_state → List order_state
  | [] => []
  | x :: xs => if id_matches id x then f x :: xs else x :: modify_first_id id f xs

/-- `std::multiset::insert`: place the new element before the first element
it strictly precedes, i.e. after every equivalent element (upper bound). -/
def multiset_insert (cmp : order_state → order_state → Bool) (s : order_state) :
    List order_state → List order_state
  | [] => [s]
  | x :: xs => if cmp s x then s :: x :: xs else x :: multiset_insert cmp s xs

/-- `orders::order_queue`: priced bid/ask containers plus the historical
ledger. The id → iterator back-indexes are modelled by first-occurrence
search in the side lists; the bounded revolving ledger buffer (whose header
lives outside this repository's core sources) is modelled by its content
sequence in insertion order, which is all the verified claims observe. -/
structure order_queue where
  bids : List order_state
  asks : List order_state
  historical_ledger : List order_state
deriving DecidableEq

namespace order_queue

/-- The empty store (default construction). -/
def init : order_queue :=
  ⟨[], [], []⟩

/-- `order_queue::emplace(order_state&&)`: on the side selected by the
order's buy flag, defensively erase an already-indexed entry with the same
id, then insert into the ordered container. -/
def emplace (q : order_queue) (state : order_state) : order_queue :=
  let id := state.order.order_id
  if state.order.is_buy then
    { q with bids := multiset_insert bid_cmp state (erase_first_id id q.bids) }
  else
    { q with asks := multiset_insert ask_cmp state (erase_first_id id q.asks) }

/-- `order_queue::get`: bid index first, then ask index, else null. -/
def get (q : order_queue) (id : String) : Option order_state :=
  match find_id id q.bids with
  | some s => some s
  | none => find_id id q.asks

/-- `order_queue::inactive`: move the indexed entry (bid side first) into
the historical ledger and erase it from its live set; no-op when absent. -/
def inactive (q : order_queue) (id : String) : order_queue :=
  match find_id id q.bids with
  | some s =>
    { q with historical_ledger := q.historical_ledger ++ [s],
             bids := erase_first_id id q.bids }
  | none =>
    match find_id id q.asks with
    | some s =>
      { q with historical_ledger := q.historical_ledger ++ [s],
               asks := erase_first_id id q.asks }
    | none => q

/-- Mutation of the state `get` returned, through its pointer: rewrite the
first id match on the bid side when the bid index holds the id, else on the
ask side. -/
def modify (q : order_queue) (id : String) (f : order_state → order_state) :
    order_queue :=
  if has_id id q.bids then
    { q with bids := modify_first_id id f q.bids }
  else
    { q with asks := modify_first_id id f q.asks }

/-- `order_queue::size`. -/
def size (q : order_queue) : Nat :=
  q.bids.length + q.asks.length

end order_queue

/-- Cumulative filled quantity currently stored live for an id: the stored
state's `filled_qty`, or 0 when the id is unknown. -/
def order_queue.stored_filled (q : order_queue) (id : String) : Int :=
  ((q.get id).map order_state.filled_qty).getD 0

/-! ## Execution engine base — `include/execution_engine_base.hpp`
(current version, backed by `order_queue`) -/

/-- The weighted-average fill price `emit_fill` stores (its steps 2-3):
with `st0` the state found by the lookup, the new cumulative total is
`st0.filled_qty + fq`; when positive the average is recomputed as
`(avg * prev + price * fq) / new`, otherwise it is reset to 0 (the
source's zero-division guard). -/
def emit_avg (st0 : order_state) (fq : Int) (p : ℚ) : ℚ :=
  if 0 < st0.filled_qty + fq then
    (st0.avg_fill_price * (((st0.filled_qty + fq : Int) : ℚ) - (fq : ℚ))
      + p * (fq : ℚ)) / ((st0.filled_qty + fq : Int) : ℚ)
  else 0

/-- `execution_engine_base::emit_fill`: look up (or freshly seed) the
order-state, accumulate the filled quantity, store the recomputed weighted
average fill price (`emit_avg`), retire the order to the historical ledger
once the cumulative fill reaches the order quantity, and push one fill
event. Returns the updated store and queue. -/
def emit_fill (ord : order_event) (filled_qty : Int) (exec_price : ℚ)
    (orders : order_queue) (queue : event_queue) (time_stamp : Int) :
    order_queue × event_queue :=
  let q1 := if (orders.get ord.order_id).isSome then orders
            else orders.emplace (order_state.of_order ord)
  match q1.get ord.order_id with
  | none => (q1, queue)
  | some st =>
    let q2 := q1.modify ord.order_id
      (fun s =>
        { s with
          filled_qty := st.filled_qty + filled_qty
          avg_fill_price := emit_avg st filled_qty exec_price })
    let q3 := if st.order.quantity ≤ st.filled_qty + filled_qty
              then q2.inactive st.order.order_id
              else q2
    (q3, queue.push (.fill ⟨ord.symbol, ord.order_id, filled_qty, ord.quantity,
        ord.is_buy, exec_price, ord, time_stamp⟩))

/-! ## Portfolio — `include/portfolio/position_state.hpp`,
`include/portfolio/risk_limits.hpp`, `portfolio_manager.hpp`
(template `PortfolioManager<EventBus, MAX_SYMBOLS>`) -/

/-- `portfolio::PositionState`. -/
structure PositionState where
  quantity : Int
  pending_quantity : Int
  average_cost : ℚ
  realized_pnl : ℚ
  last_price : ℚ
deriving DecidableEq

/-- Default-constructed `PositionState`: everything zero. -/
def PositionState.init : PositionState :=
  ⟨0, 0, 0, 0, 0⟩

/-- `portfolio::RiskLimits`. -/
structure RiskLimits where
  max_positions : Int
  max_order_size : Int
  max_notional : ℚ
deriving DecidableEq

/-- Default-constructed `RiskLimits`: 1000 / 100 / 1e6. -/
def RiskLimits.init : RiskLimits :=
  ⟨1000, 100, 1000000⟩

/-- `PortfolioManager::SymbolData`: per-symbol position and risk limits. -/
structure SymbolData where
  pos : PositionState
  risk : RiskLimits
deriving DecidableEq

/-- Default-constructed `SymbolData`. -/
def SymbolData.init : SymbolData :=
  ⟨PositionState.init, RiskLimits.init⟩

/-- One order published on the event bus by
`event_bus_.emit_order(order_id, symbol_id, quantity, price, timestamp_ns)`. -/
structure EmittedOrder where
  order_id : Nat
  symbol_id : Nat
  quantity : Int
  price : ℚ
  timestamp_ns : Nat
deriving DecidableEq

/-- The two exception kinds `PortfolioManager` throws:
`std::out_of_range` and `std::invalid_argument`. -/
inductive portfolio_error where
  | OutOfRange
  | InvalidArgument
deriving DecidableEq

/-- `PortfolioManager<EventBus, MAX_SYMBOLS>` state. The fixed
`symbol_data_` array and the active-position bitset are modelled as total
functions on symbol ids; operations only ever read or write ids below `N`. -/
structure PortfolioManager (N : Nat) where
  symbol_data : Nat → SymbolData
  active_positions : Nat → Bool
  cash : ℚ
  initial_capital : ℚ
  total_realized_pnl : ℚ
  order_count : Nat
  fill_count : Nat
  reject_count : Nat
  next_order_id : Nat

namespace PortfolioManager

variable {N : Nat}

/-- The constructor: every symbol default-initialized, counters zero,
order-id counter starting at 1. -/
def init (N : Nat) (initial_capital : ℚ) : PortfolioManager N :=
  { symbol_data := fun _ => SymbolData.init
    active_positions := fun _ => false
    cash := initial_capital
    initial_capital := initial_capital
    total_realized_pnl := 0
    order_count := 0
    fill_count := 0
    reject_count := 0
    next_order_id := 1 }

/-- `PortfolioManager::is_valid_symbol`. -/
def is_valid_symbol (N : Nat) (symbol_id : Nat) : Bool :=
  symbol_id < N

/-- `PortfolioManager::can_execute`: order size, resulting position,
notional and cash checks, combined branchlessly in the source. -/
def can_execute (pm : PortfolioManager N) (symbol_id : Nat)
    (quantity : Int) (price : ℚ) : Bool :=
  let pos := (pm.symbol_data symbol_id).pos
  let risk := (pm.symbol_data symbol_id).risk
  let abs_quantity := |quantity|
  let new_position := pos.quantity + pos.pending_quantity + quantity
  let abs_new_position := |new_position|
  let cost : ℚ := (quantity : ℚ) * price
  let order_size_ok := abs_quantity ≤ risk.max_order_size
  let position_ok := abs_new_position ≤ risk.max_positions
  let notional_ok := (abs_new_position : ℚ) * price ≤ risk.max_notional
  let cash_ok := quantity ≤ 0 ∨ cost ≤ pm.cash
  decide order_size_ok && decide position_ok && decide notional_ok && decide cash_ok

/-- `PortfolioManager::update_position_on_fill`: the branch-free position
update. `(old ^ quantity) < 0` on two's-complement integers holds exactly
when the signs differ, i.e. exactly one operand is negative; the boolean
factors become 0/1 multiplicands as in the source. -/
def update_position_on_fill (pm : PortfolioManager N) (symbol_id : Nat)
    (quantity : Int) (price : ℚ) : PortfolioManager N :=
  let pos := (pm.symbol_data symbol_id).pos
  let old_qty := pos.quantity
  let new_qty := old_qty + quantity
  let is_closing : Bool := decide ((old_qty < 0) ≠ (quantity < 0))
  let closed_qty : Int := min |quantity| |old_qty|
  let sign : Int := if 0 < old_qty then 1 else -1
  let pnl_per_share : ℚ := (sign : ℚ) * (price - pos.average_cost)
  let realized_pnl_delta : ℚ :=
    (closed_qty : ℚ) * pnl_per_share * (if is_closing then 1 else 0)
  let new_vwap : ℚ :=
    if new_qty ≠ 0 then
      ((old_qty : ℚ) * pos.average_cost + (quantity : ℚ) * price) / (new_qty : ℚ)
    else pos.average_cost
  let reversed : Bool := decide ((old_qty < 0) ≠ (new_qty < 0)) && decide (new_qty ≠ 0)
  let pos' : PositionState :=
    { pos with
      realized_pnl := pos.realized_pnl + realized_pnl_delta
      average_cost :=
        if reversed then price else if is_closing then pos.average_cost else new_vwap
      quantity := new_qty }
  { pm with
    symbol_data :=
      Function.update pm.symbol_data symbol_id { pm.symbol_data symbol_id with pos := pos' }
    total_realized_pnl := pm.total_realized_pnl + realized_pnl_delta }

/-- `PortfolioManager::update_active_status`: set or clear the bitmap entry
according to whether the position quantity is non-zero. -/
def update_active_status (pm : PortfolioManager N) (symbol_id : Nat) :
    PortfolioManager N :=
  { pm with
    active_positions :=
      Function.update pm.active_positions symbol_id
        (decide ((pm.symbol_data symbol_id).pos.quantity ≠ 0)) }

/-- Helper for the pending-quantity writes in `on_signal` / `on_fill`. -/
def add_pending (pm : PortfolioManager N) (symbol_id : Nat) (delta : Int) :
    PortfolioManager N :=
  let sym := pm.symbol_data symbol_id
  { pm with
    symbol_data :=
      Function.update pm.symbol_data symbol_id
        { sym with pos := { sym.pos with pending_quantity := sym.pos.pending_quantity + delta } } }

/-- `PortfolioManager::on_signal`: validate, risk-gate, update the pending
ledger, allocate an order id and emit. The returned list holds the orders
published on the event bus during the call. Over `ℚ` every value is finite,
so `std::isfinite` never fails. -/
def on_signal (pm : PortfolioManager N) (symbol_id : Nat) (quantity : Int)
    (price : ℚ) (timestamp_ns : Nat) :
    Except portfolio_error (PortfolioManager N × List EmittedOrder) :=
  if ¬ is_valid_symbol N symbol_id then .error .OutOfRange
  else if price ≤ 0 then .error .InvalidArgument
  else if quantity = 0 then .error .InvalidArgument
  else if ¬ can_execute pm symbol_id quantity price then
    .ok ({ pm with reject_count := pm.reject_count + 1 }, [])
  else
    let pm1 := add_pending pm symbol_id quantity
    let order_id := pm1.next_order_id
    let pm2 : PortfolioManager N := { pm1 with next_order_id := pm1.next_order_id + 1 }
    .ok ({ pm2 with order_count := pm2.order_count + 1 },
         [⟨order_id, symbol_id, quantity, price, timestamp_ns⟩])

/-- `PortfolioManager::on_fill`: validate, reconcile pending, apply the
position update, adjust cash by the signed notional, bump the fill count
and refresh the active bitmap. -/
def on_fill (pm : PortfolioManager N) (symbol_id : Nat) (quantity : Int)
    (price : ℚ) : Except portfolio_error (PortfolioManager N) :=
  if ¬ is_valid_symbol N symbol_id then .error .OutOfRange
  else if price ≤ 0 then .error .InvalidArgument
  else if quantity = 0 then .error .InvalidArgument
  else
    let pm1 := add_pending pm symbol_id (-quantity)
    let pm2 := update_position_on_fill pm1 symbol_id quantity price
    let pm3 := { pm2 with
      cash := pm2.cash - (quantity : ℚ) * price
      fill_count := pm2.fill_count + 1 }
    .ok (update_active_status pm3 symbol_id)

/-- `PortfolioManager::on_market_data`: validate and store the last price. -/
def on_market_data (pm : PortfolioManager N) (symbol_id : Nat) (last : ℚ) :
    Except portfolio_error (PortfolioManager N) :=
  if ¬ is_valid_symbol N symbol_id then .error .OutOfRange
  else if last ≤ 0 then .error .InvalidArgument
  else
    let sym := pm.symbol_data symbol_id
    .ok { pm with
      symbol_data :=
        Function.update pm.symbol_data symbol_id
          { sym with pos := { sym.pos with last_price := last } } }

/-- `PortfolioManager::get_position`: bounds-checked position read. -/
def get_position (pm : PortfolioManager N) (symbol_id : Nat) :
    Except portfolio_error PositionState :=
  if ¬ is_valid_symbol N symbol_id then .error .OutOfRange
  else .ok (pm.symbol_data symbol_id).pos

/-- `PortfolioManager::get_unrealized_pnl`: bounds-checked mark-to-market. -/
def get_unrealized_pnl (pm : PortfolioManager N) (symbol_id : Nat) :
    Except portfolio_error ℚ :=
  if ¬ is_valid_symbol N symbol_id then .error .OutOfRange
  else
    let pos := (pm.symbol_data symbol_id).pos
    .ok ((pos.quantity : ℚ) * (pos.last_price - pos.average_cost))

/-- `PortfolioManager::set_risk_limit`: bounds-checked risk write. -/
def set_risk_limit (pm : PortfolioManager N) (symbol_id : Nat)
    (limit : RiskLimits) : Except portfolio_error (PortfolioManager N) :=
  if ¬ is_valid_symbol N symbol_id then .error .OutOfRange
  else
    .ok { pm with
      symbol_data :=
        Function.update pm.symbol_data symbol_id
          { pm.symbol_data symbol_id with risk := limit } }

/-- `PortfolioManager::get_risk_limit`: bounds-checked risk read. -/
def get_risk_limit (pm : PortfolioManager N) (symbol_id : Nat) :
    Except portfolio_error RiskLimits :=
  if ¬ is_valid_symbol N symbol_id then .error .OutOfRange
  else .ok (pm.symbol_data symbol_id).risk

/-- `PortfolioManager::has_position`: never throws — an out-of-range id
short-circuits to `false` before the bitset is touched. -/
def has_position (pm : PortfolioManager N) (symbol_id : Nat) : Bool :=
  is_valid_symbol N symbol_id && pm.active_positions symbol_id

end PortfolioManager

/-! ## Dispatcher — `engine_base.hpp` (current version with pause,
metrics and execution-engine market re-evaluation) -/

/-- The component entry points `engine_base::handle_event` can invoke. -/
inductive handler_call where
  | portfolio_on_market
  | exec_on_market
  | strategy_on_market
  | strategy_on_signal
  | exec_on_order
  | portfolio_on_fill
deriving DecidableEq

/-- The sequence of component invocations `engine_base::handle_event`
performs for one event, in program order of the `std::visit` dispatch. -/
def handle_event_calls : event → List handler_call
  | .market _ => [.portfolio_on_market, .exec_on_market, .strategy_on_market]
  | .signal _ => [.strategy_on_signal]
  | .order _ => [.exec_on_order]
  | .fill _ => [.portfolio_on_fill]
  | .cancel _ => []

/-! ## Concrete fixtures used by witnesses and counterexamples -/

/-- A fresh four-symbol manager with 100000 initial capital and default
risk limits everywhere. -/
def pmW : PortfolioManager 4 := PortfolioManager.init 4 100000

/-- A manager holding an established short position of 100 units at
average cost 50 on symbol 0. -/
def pm_short : PortfolioManager 4 :=
  { symbol_data := fun i => if i = 0 then ⟨⟨-100, 0, 50, 0, 0⟩, RiskLimits.init⟩
                            else SymbolData.init
    active_positions := fun i => i = 0
    cash := 105000
    initial_capital := 100000
    total_realized_pnl := 0
    order_count := 0
    fill_count := 1
    reject_count := 0
    next_order_id := 1 }

/-- A throwaway market event for order construction. -/
def mevW : market_event := ⟨"", 0, 0, 0, false⟩

/-- A concrete ten-unit buy limit order. -/
def oevW : order_event := ⟨"BTC", "o1", 10, true, 100, .Limit, 0, 5, mevW⟩

/-- A sell order with id `X`. -/
def askevW : order_event := ⟨"BTC", "X", 5, false, 101, .Limit, 0, 1, mevW⟩

/-- A buy order with the same id `X` as `askevW`. -/
def bidevW : order_event := ⟨"BTC", "X", 7, true, 99, .Limit, 0, 2, mevW⟩

end QuantEngine

namespace QuantEngine

/-! ## Basic facts about the id-indexed list primitives -/

theorem count_id_nil {id : String} : count_id id [] = 0 := rfl

theorem count_id_cons {id : String} {x : order_state} {xs : List order_state} :
    count_id id (x :: xs) = count_id id xs + (if id_matches id x then 1 else 0) := by
  simp only [count_id, List.countP_cons]

theorem has_id_cons {id : String} {x : order_state} {xs : List order_state} :
    has_id id (x :: xs) = (id_matches id x || has_id id xs) := by
  simp [has_id]

theorem find_id_none_of_not_has {id : String} {l : List order_state}
    (h : has_id id l = false) : find_id id l = none := by
  induction l with
  | nil => rfl
  | cons x xs ih =>
    rw [has_id_cons, Bool.or_eq_false_iff] at h
    simp only [find_id, List.find?_cons, h.1]
    exact ih h.2

theorem has_of_find_id {id : String} {l : List order_state} {s : order_state}
    (h : find_id id l = some s) : has_id id l = true := by
  induction l with
  | nil => simp [find_id] at h
  | cons x xs ih =>
    cases hx : id_matches id x with
    | true => simp [has_id_cons, hx]
    | false =>
      simp only [find_id, List.find?_cons, hx] at h
      simp only [has_id_cons, hx, Bool.false_or]
      exact ih h

theorem id_matches_of_find_id {id : String} {l : List order_state} {s : order_state}
    (h : find_id id l = some s) : id_matches id s = true := by
  induction l with
  | nil => simp [find_id] at h
  | cons x xs ih =>
    cases hx : id_matches id x with
    | true =>
      simp only [find_id, List.find?_cons, hx] at h
      cases h
      exact hx
    | false =>
      simp only [find_id, List.find?_cons, hx] at h
      exact ih h

theorem erase_first_id_of_not_has {id : String} {l : List order_state}
    (h : has_id id l = false) : erase_first_id id l = l := by
  induction l with
  | nil => rfl
  | cons x xs ih =>
    rw [has_id_cons, Bool.or_eq_false_iff] at h
    simp only [erase_first_id, h.1, Bool.false_eq_true, if_false]
    rw [ih h.2]

theorem find_id_insert_self {cmp : order_state → order_state → Bool}
    {id : String} {s : order_state} {l : List order_state}
    (hl : has_id id l = false) (hs : id_matches id s = true) :
    find_id id (multiset_insert cmp s l) = some s := by
  induction l with
  | nil => simp [multiset_insert, find_id, List.find?_cons, hs]
  | cons x xs ih =>
    rw [has_id_cons, Bool.or_eq_false_iff] at hl
    simp only [multiset_insert]
    cases hc : cmp s x with
    | true => simp [find_id, List.find?_cons, hs]
    | false =>
      simp only [Bool.false_eq_true, if_false, find_id, List.find?_cons, hl.1]
      exact ih hl.2

theorem erase_first_id_insert {cmp : order_state → order_state → Bool}
    {id : String} {s : order_state} {l : List order_state}
    (hl : has_id id l = false) (hs : id_matches id s = true) :
    erase_first_id id (multiset_insert cmp s l) = l := by
  induction l with
  | nil => simp [multiset_insert, erase_first_id, hs]
  | cons x xs ih =>
    rw [has_id_cons, Bool.or_eq_false_iff] at hl
    simp only [multiset_insert]
    cases hc : cmp s x with
    | true => simp [erase_first_id, hs]
    | false =>
      simp only [Bool.false_eq_true, if_false, erase_first_id, hl.1,
        List.cons.injEq, true_and]
      exact ih hl.2

theorem count_id_eq_zero_iff {id : String} {l : List order_state} :
    count_id id l = 0 ↔ has_id id l = false := by
  induction l with
  | nil => simp [count_id_nil, has_id]
  | cons x xs ih =>
    rw [count_id_cons, has_id_cons, Bool.or_eq_false_iff]
    cases hx : id_matches id x with
    | true => simp [hx]
    | false => simp [hx, ih]

theorem one_le_count_of_has {id : String} {l : List order_state}
    (h : has_id id l = true) : 1 ≤ count_id id l := by
  by_contra hc
  have h0 : count_id id l = 0 := by omega
  rw [count_id_eq_zero_iff.mp h0] at h
  cases h

theorem not_has_erase_of_count_le_one {id : String} {l : List order_state}
    (h : count_id id l ≤ 1) : has_id id (erase_first_id id l) = false := by
  induction l with
  | nil => simp [erase_first_id, has_id]
  | cons x xs ih =>
    rw [count_id_cons] at h
    cases hx : id_matches id x with
    | true =>
      rw [hx, if_pos rfl] at h
      simp only [erase_first_id, hx, if_pos]
      exact count_id_eq_zero_iff.mp (by omega)
    | false =>
      rw [hx] at h
      simp only [erase_first_id, hx, Bool.false_eq_true, if_false, has_id_cons,
        hx, Bool.false_or]
      exact ih (by omega)

theorem count_id_insert {cmp : order_state → order_state → Bool}
    {id : String} {s : order_state} {l : List order_state} :
    count_id id (multiset_insert cmp s l) =
      count_id id l + (if id_matches id s then 1 else 0) := by
  induction l with
  | nil => simp [multiset_insert, count_id_nil, count_id_cons]
  | cons x xs ih =>
    simp only [multiset_insert]
    cases hc : cmp s x with
    | true =>
      rw [if_pos rfl, count_id_cons, count_id_cons]
    | false =>
      simp only [Bool.false_eq_true, if_false]
      rw [count_id_cons, count_id_cons, ih]
      omega

theorem order_id_of_id_matches {id : String} {s : order_state}
    (h : id_matches id s = true) : s.order.order_id = id := by
  simpa [id_matches] using h

theorem id_matches_self {s : order_state} :
    id_matches s.order.order_id s = true := by
  simp [id_matches]

theorem find_isSome_of_has {id : String} {l : List order_state}
    (h : has_id id l = true) : (find_id id l).isSome = true := by
  induction l with
  | nil => simp [has_id] at h
  | cons x xs ih =>
    cases hx : id_matches id x with
    | true => simp [find_id, List.find?_cons, hx]
    | false =>
      rw [has_id_cons, hx, Bool.false_or] at h
      simp only [find_id, List.find?_cons, hx]
      exact ih h

theorem not_has_of_find_id_none {id : String} {l : List order_state}
    (h : find_id id l = none) : has_id id l = false := by
  cases hh : has_id id l with
  | false => rfl
  | true =>
    have := find_isSome_of_has hh
    rw [h] at this
    cases this

theorem find_id_modify {id : String} {f : order_state → order_state}
    {l : List order_state} (hf : ∀ x, id_matches id (f x) = id_matches id x) :
    find_id id (modify_first_id id f l) = (find_id id l).map f := by
  induction l with
  | nil => rfl
  | cons x xs ih =>
    cases hx : id_matches id x with
    | true =>
      simp [modify_first_id, find_id, List.find?_cons, hx, hf x]
    | false =>
      simp only [modify_first_id, hx, Bool.false_eq_true, if_false, find_id,
        List.find?_cons, hx]
      exact ih

theorem erase_first_id_modify {id : String} {f : order_state → order_state}
    {l : List order_state} (hf : ∀ x, id_matches id (f x) = id_matches id x) :
    erase_first_id id (modify_first_id id f l) = erase_first_id id l := by
  induction l with
  | nil => rfl
  | cons x xs ih =>
    cases hx : id_matches id x with
    | true => simp [modify_first_id, erase_first_id, hx, hf x]
    | false =>
      simp only [modify_first_id, hx, Bool.false_eq_true, if_false,
        erase_first_id, List.cons.injEq, true_and]
      exact ih

theorem has_id_modify {id : String} {f : order_state → order_state}
    {l : List order_state} (hf : ∀ x, id_matches id (f x) = id_matches id x) :
    has_id id (modify_first_id id f l) = has_id id l := by
  induction l with
  | nil => rfl
  | cons x xs ih =>
    cases hx : id_matches id x with
    | true => simp [modify_first_id, has_id_cons, hx, hf x]
    | false =>
      simp only [modify_first_id, hx, Bool.false_eq_true, if_false, has_id_cons, hx]
      rw [ih]

theorem count_id_modify {id : String} {f : order_state → order_state}
    {l : List order_state} (hf : ∀ x, id_matches id (f x) = id_matches id x) :
    count_id id (modify_first_id id f l) = count_id id l := by
  induction l with
  | nil => rfl
  | cons x xs ih =>
    cases hx : id_matches id x with
    | true => simp [modify_first_id, count_id_cons, hx, hf x]
    | false =>
      simp only [modify_first_id, hx, Bool.false_eq_true, if_false, count_id_cons, hx]
      rw [ih]

theorem modify_first_id_of_not_has {id : String} {f : order_state → order_state}
    {l : List order_state} (h : has_id id l = false) :
    modify_first_id id f l = l := by
  induction l with
  | nil => rfl
  | cons x xs ih =>
    rw [has_id_cons, Bool.or_eq_false_iff] at h
    simp only [modify_first_id, h.1, Bool.false_eq_true, if_false]
    rw [ih h.2]

/-! ## Store-level lemmas for `order_queue` -/

theorem order_queue.get_eq_none_iff {q : order_queue} {id : String} :
    q.get id = none ↔ has_id id q.bids = false ∧ has_id id q.asks = false := by
  constructor
  · intro h
    unfold order_queue.get at h
    cases hb : find_id id q.bids with
    | some s => rw [hb] at h; cases h
    | none =>
      rw [hb] at h
      exact ⟨not_has_of_find_id_none hb, not_has_of_find_id_none h⟩
  · intro hba
    unfold order_queue.get
    rw [find_id_none_of_not_has hba.1, find_id_none_of_not_has hba.2]

theorem order_queue.get_eq_some_bids {q : order_queue} {id : String}
    {s : order_state} (h : find_id id q.bids = some s) : q.get id = some s := by
  unfold order_queue.get
  rw [h]

theorem order_queue.get_eq_some_asks {q : order_queue} {id : String}
    {s : order_state} (hb : find_id id q.bids = none)
    (h : find_id id q.asks = some s) : q.get id = some s := by
  unfold order_queue.get
  rw [hb, h]

/-- Behaviour of the `modify`-then-maybe-`inactive` tail of `emit_fill`,
for a store that holds the found state `st` on exactly one side with no
other entry under the same id. -/
theorem store_update_spec (q1 : order_queue) (id : String) (st : order_state)
    (f : order_state → order_state)
    (hf : ∀ x, id_matches id (f x) = id_matches id x)
    (hid : st.order.order_id = id)
    (hcase :
      (find_id id q1.bids = some st ∧ count_id id q1.bids = 1 ∧
        has_id id q1.asks = false) ∨
      (find_id id q1.bids = none ∧ find_id id q1.asks = some st ∧
        count_id id q1.asks = 1)) :
    (q1.modify id f).get id = some (f st) ∧
    (q1.modify id f).historical_ledger = q1.historical_ledger ∧
    ((q1.modify id f).inactive st.order.order_id).get id = none ∧
    ((q1.modify id f).inactive st.order.order_id).historical_ledger =
      q1.historical_ledger ++ [f st] := by
  rw [hid]
  rcases hcase with ⟨hb, hc1, hano⟩ | ⟨hbn, ha, hc1⟩
  · have hhas : has_id id q1.bids = true := has_of_find_id hb
    have hq2 : q1.modify id f = { q1 with bids := modify_first_id id f q1.bids } := by
      simp [order_queue.modify, hhas]
    have hfind2 : find_id id (modify_first_id id f q1.bids) = some (f st) := by
      rw [find_id_modify hf, hb]
      rfl
    refine ⟨?_, ?_, ?_, ?_⟩
    · rw [hq2]
      exact order_queue.get_eq_some_bids (q := { q1 with bids := modify_first_id id f q1.bids }) hfind2
    · rw [hq2]
    · rw [hq2]
      show (order_queue.inactive _ id).get id = none
      unfold order_queue.inactive
      simp only [hfind2]
      apply order_queue.get_eq_none_iff.mpr
      constructor
      · apply not_has_erase_of_count_le_one
        rw [count_id_modify hf, hc1]
      · exact hano
    · rw [hq2]
      show (order_queue.inactive _ id).historical_ledger = _
      unfold order_queue.inactive
      simp only [hfind2]
  · have hbfalse : has_id id q1.bids = false := not_has_of_find_id_none hbn
    have hq2 : q1.modify id f = { q1 with asks := modify_first_id id f q1.asks } := by
      simp [order_queue.modify, hbfalse]
    have hfind2 : find_id id (modify_first_id id f q1.asks) = some (f st) := by
      rw [find_id_modify hf, ha]
      rfl
    refine ⟨?_, ?_, ?_, ?_⟩
    · rw [hq2]
      exact order_queue.get_eq_some_asks (q := { q1 with asks := modify_first_id id f q1.asks }) hbn hfind2
    · rw [hq2]
    · rw [hq2]
      show (order_queue.inactive _ id).get id = none
      unfold order_queue.inactive
      simp only [hbn, hfind2]
      apply order_queue.get_eq_none_iff.mpr
      refine ⟨hbfalse, ?_⟩
      apply not_has_erase_of_count_le_one
      rw [count_id_modify hf, hc1]
    · rw [hq2]
      show (order_queue.inactive _ id).historical_ledger = _
      unfold order_queue.inactive
      simp only [hbn, hfind2]

/-- `emplace` of a buy state whose id is absent from the bid side: pure
ordered insert. -/
theorem order_queue.emplace_bid_eq (q : order_queue) (s : order_state)
    (hb : s.order.is_buy = true) (h : has_id s.order.order_id q.bids = false) :
    q.emplace s = { q with bids := multiset_insert bid_cmp s q.bids } := by
  unfold order_queue.emplace
  rw [if_pos hb, erase_first_id_of_not_has h]

/-- `emplace` of a sell state whose id is absent from the ask side: pure
ordered insert. -/
theorem order_queue.emplace_ask_eq (q : order_queue) (s : order_state)
    (hb : ¬ s.order.is_buy = true) (h : has_id s.order.order_id q.asks = false) :
    q.emplace s = { q with asks := multiset_insert ask_cmp s q.asks } := by
  unfold order_queue.emplace
  rw [if_neg hb, erase_first_id_of_not_has h]

/-- Reduction of `emit_fill` when the id is already stored: the lookup
finds `st0`, no fresh seed happens, and the tail is modify-then-maybe-retire. -/
theorem emit_fill_eq_of_get_some (ord : order_event) (fq : Int) (p : ℚ)
    (q : order_queue) (queue : event_queue) (ts : Int) (st0 : order_state)
    (hget : q.get ord.order_id = some st0) :
    emit_fill ord fq p q queue ts =
      (if st0.order.quantity ≤ st0.filled_qty + fq
       then (q.modify ord.order_id (fun s =>
         { s with
           filled_qty := st0.filled_qty + fq
           avg_fill_price := emit_avg st0 fq p })).inactive st0.order.order_id
       else q.modify ord.order_id (fun s =>
         { s with
           filled_qty := st0.filled_qty + fq
           avg_fill_price := emit_avg st0 fq p }),
       queue.push (.fill ⟨ord.symbol, ord.order_id, fq, ord.quantity,
         ord.is_buy, p, ord, ts⟩)) := by
  unfold emit_fill
  simp only [hget, Option.isSome_some, reduceIte]

/-- Reduction of `emit_fill` when the id is unknown: a fresh zero state is
seeded first and `st1` is whatever the post-seed lookup returns. -/
theorem emit_fill_eq_of_get_none (ord : order_event) (fq : Int) (p : ℚ)
    (q : order_queue) (queue : event_queue) (ts : Int) (st1 : order_state)
    (hget : q.get ord.order_id = none)
    (hget1 : (q.emplace (order_state.of_order ord)).get ord.order_id = some st1) :
    emit_fill ord fq p q queue ts =
      (if st1.order.quantity ≤ st1.filled_qty + fq
       then ((q.emplace (order_state.of_order ord)).modify ord.order_id (fun s =>
         { s with
           filled_qty := st1.filled_qty + fq
           avg_fill_price := emit_avg st1 fq p })).inactive st1.order.order_id
       else (q.emplace (order_state.of_order ord)).modify ord.order_id (fun s =>
         { s with
           filled_qty := st1.filled_qty + fq
           avg_fill_price := emit_avg st1 fq p }),
       queue.push (.fill ⟨ord.symbol, ord.order_id, fq, ord.quantity,
         ord.is_buy, p, ord, ts⟩)) := by
  unfold emit_fill
  simp only [hget, Option.isSome_none, Bool.false_eq_true, if_false, hget1]

/-- Full behaviour of `emit_fill` on a store whose two sides jointly hold
at most one entry under the order's id: the fill event pushed, and the
stored state's accumulation, retirement and ledger effects. `st0` is the
state the lookup finds (the fresh zero state when the id is unknown). -/
theorem emit_fill_spec (ord : order_event) (fq : Int) (p : ℚ) (q : order_queue)
    (queue : event_queue) (ts : Int) (st0 : order_state)
    (hst : (q.get ord.order_id = none ∧ st0 = order_state.of_order ord) ∨
           q.get ord.order_id = some st0)
    (hWF : count_id ord.order_id q.bids + count_id ord.order_id q.asks ≤ 1) :
    (emit_fill ord fq p q queue ts).2 =
      queue.push (.fill ⟨ord.symbol, ord.order_id, fq, ord.quantity, ord.is_buy, p, ord, ts⟩)
    ∧ (st0.order.quantity ≤ st0.filled_qty + fq →
        (emit_fill ord fq p q queue ts).1.get ord.order_id = none ∧
        (emit_fill ord fq p q queue ts).1.historical_ledger =
          q.historical_ledger ++
            [{ st0 with
                filled_qty := st0.filled_qty + fq
                avg_fill_price := emit_avg st0 fq p }])
    ∧ (st0.filled_qty + fq < st0.order.quantity →
        (emit_fill ord fq p q queue ts).1.get ord.order_id =
          some { st0 with
                 filled_qty := st0.filled_qty + fq
                 avg_fill_price := emit_avg st0 fq p } ∧
        (emit_fill ord fq p q queue ts).1.historical_ledger = q.historical_ledger) := by
  rcases hst with ⟨hget, hst0⟩ | hget
  · subst hst0
    obtain ⟨hbf, haf⟩ := order_queue.get_eq_none_iff.mp hget
    have hm : id_matches ord.order_id (order_state.of_order ord) = true := by
      simp [id_matches, order_state.of_order]
    have hid0 : (order_state.of_order ord).order.order_id = ord.order_id := rfl
    have hfe : ∀ x : order_state, id_matches ord.order_id
        ((fun s => { s with
            filled_qty := (order_state.of_order ord).filled_qty + fq
            avg_fill_price := emit_avg (order_state.of_order ord) fq p }) x)
        = id_matches ord.order_id x := fun x => by simp [id_matches]
    have hledg1 : (q.emplace (order_state.of_order ord)).historical_ledger =
        q.historical_ledger := by
      unfold order_queue.emplace
      by_cases hbuy : (order_state.of_order ord).order.is_buy = true
      · rw [if_pos hbuy]
      · rw [if_neg hbuy]
    have hmain : ((q.emplace (order_state.of_order ord)).get ord.order_id =
          some (order_state.of_order ord)) ∧
        ((find_id ord.order_id ((q.emplace (order_state.of_order ord)).bids) =
            some (order_state.of_order ord) ∧
          count_id ord.order_id ((q.emplace (order_state.of_order ord)).bids) = 1 ∧
          has_id ord.order_id ((q.emplace (order_state.of_order ord)).asks) = false) ∨
         (find_id ord.order_id ((q.emplace (order_state.of_order ord)).bids) = none ∧
          find_id ord.order_id ((q.emplace (order_state.of_order ord)).asks) =
            some (order_state.of_order ord) ∧
          count_id ord.order_id ((q.emplace (order_state.of_order ord)).asks) = 1)) := by
      by_cases hbuy : (order_state.of_order ord).order.is_buy = true
      · have hq1 : q.emplace (order_state.of_order ord) =
            { q with bids := multiset_insert bid_cmp (order_state.of_order ord) q.bids } :=
          order_queue.emplace_bid_eq q (order_state.of_order ord) hbuy hbf
        have hfind1 : find_id ord.order_id
            ((q.emplace (order_state.of_order ord)).bids) =
            some (order_state.of_order ord) := by
          rw [hq1]
          exact find_id_insert_self hbf hm
        refine ⟨order_queue.get_eq_some_bids hfind1, Or.inl ⟨hfind1, ?_, ?_⟩⟩
        · rw [hq1]
          show count_id _ (multiset_insert _ _ _) = 1
          rw [count_id_insert, count_id_eq_zero_iff.mpr hbf, hm]
          rfl
        · rw [hq1]
          exact haf
      · have hq1 : q.emplace (order_state.of_order ord) =
            { q with asks := multiset_insert ask_cmp (order_state.of_order ord) q.asks } :=
          order_queue.emplace_ask_eq q (order_state.of_order ord) hbuy haf
        have hbids1 : find_id ord.order_id
            ((q.emplace (order_state.of_order ord)).bids) = none := by
          rw [hq1]
          exact find_id_none_of_not_has hbf
        have hfind1 : find_id ord.order_id
            ((q.emplace (order_state.of_order ord)).asks) =
            some (order_state.of_order ord) := by
          rw [hq1]
          exact find_id_insert_self haf hm
        refine ⟨order_queue.get_eq_some_asks hbids1 hfind1, Or.inr ⟨hbids1, hfind1, ?_⟩⟩
        rw [hq1]
        show count_id _ (multiset_insert _ _ _) = 1
        rw [count_id_insert, count_id_eq_zero_iff.mpr haf, hm]
        rfl
    obtain ⟨hget1, hcase⟩ := hmain
    obtain ⟨hg2, hl2, hg3, hl3⟩ := store_update_spec
      (q.emplace (order_state.of_order ord)) ord.order_id (order_state.of_order ord)
      (fun s => { s with
          filled_qty := (order_state.of_order ord).filled_qty + fq
          avg_fill_price := emit_avg (order_state.of_order ord) fq p })
      hfe hid0 hcase
    rw [emit_fill_eq_of_get_none ord fq p q queue ts (order_state.of_order ord) hget hget1]
    refine ⟨rfl, fun hclose => ?_, fun hopen => ?_⟩
    · rw [if_pos hclose]
      exact ⟨hg3, by rw [hl3, hledg1]⟩
    · rw [if_neg (by omega)]
      exact ⟨hg2, by rw [hl2, hledg1]⟩
  · have hfe : ∀ x : order_state, id_matches ord.order_id
        ((fun s => { s with
            filled_qty := st0.filled_qty + fq
            avg_fill_price := emit_avg st0 fq p }) x)
        = id_matches ord.order_id x := fun x => by simp [id_matches]
    have hcase : (find_id ord.order_id q.bids = some st0 ∧
          count_id ord.order_id q.bids = 1 ∧
          has_id ord.order_id q.asks = false) ∨
        (find_id ord.order_id q.bids = none ∧
          find_id ord.order_id q.asks = some st0 ∧
          count_id ord.order_id q.asks = 1) := by
      cases hb : find_id ord.order_id q.bids with
      | some sb =>
        have hsb : sb = st0 := by
          have hq := order_queue.get_eq_some_bids (q := q) hb
          rw [hget] at hq
          exact (Option.some.inj hq).symm
        have hge1 : 1 ≤ count_id ord.order_id q.bids :=
          one_le_count_of_has (has_of_find_id hb)
        refine Or.inl ⟨by rw [hsb], by omega, ?_⟩
        apply count_id_eq_zero_iff.mp
        omega
      | none =>
        have ha : find_id ord.order_id q.asks = some st0 := by
          unfold order_queue.get at hget
          rw [hb] at hget
          exact hget
        have hge1 : 1 ≤ count_id ord.order_id q.asks :=
          one_le_count_of_has (has_of_find_id ha)
        exact Or.inr ⟨rfl, ha, by omega⟩
    have hid0 : st0.order.order_id = ord.order_id := by
      rcases hcase with ⟨hb, _, _⟩ | ⟨_, ha, _⟩
      · exact order_id_of_id_matches (id_matches_of_find_id hb)
      · exact order_id_of_id_matches (id_matches_of_find_id ha)
    obtain ⟨hg2, hl2, hg3, hl3⟩ := store_update_spec q ord.order_id st0
      (fun s => { s with
          filled_qty := st0.filled_qty + fq
          avg_fill_price := emit_avg st0 fq p })
      hfe hid0 hcase
    rw [emit_fill_eq_of_get_some ord fq p q queue ts st0 hget]
    refine ⟨rfl, fun hclose => ?_, fun hopen => ?_⟩
    · rw [if_pos hclose]
      exact ⟨hg3, hl3⟩
    · rw [if_neg (by omega)]
      exact ⟨hg2, hl2⟩

end QuantEngine

namespace QuantEngine

/-! ## Claim theorems -/

/-- C2: for every valid symbol id, signed quantity and price, `can_execute`
returns true exactly when all four risk conditions hold: order size within
`max_order_size`, resulting absolute position within `max_positions`,
resulting absolute notional within `max_notional`, and for buys the cost
within available cash. -/
theorem can_execute_iff {N : Nat} (pm : PortfolioManager N) (symbol_id : Nat)
    (quantity : Int) (price : ℚ) (hsid : symbol_id < N) :
    PortfolioManager.can_execute pm symbol_id quantity price = true ↔
      (|quantity| ≤ (pm.symbol_data symbol_id).risk.max_order_size ∧
       |(pm.symbol_data symbol_id).pos.quantity +
          (pm.symbol_data symbol_id).pos.pending_quantity + quantity| ≤
         (pm.symbol_data symbol_id).risk.max_positions ∧
       ((|(pm.symbol_data symbol_id).pos.quantity +
           (pm.symbol_data symbol_id).pos.pending_quantity + quantity| : Int) : ℚ) *
           price ≤ (pm.symbol_data symbol_id).risk.max_notional ∧
       (quantity ≤ 0 ∨ (quantity : ℚ) * price ≤ pm.cash)) := by
  unfold PortfolioManager.can_execute
  simp [Bool.and_eq_true, decide_eq_true_eq, and_assoc]

/-- Witness for C2 at a concrete manager and order. -/
theorem can_execute_iff_witness :
    (0 < 4) ∧
    (PortfolioManager.can_execute pmW 0 5 10 = true ↔
      (|(5 : Int)| ≤ (pmW.symbol_data 0).risk.max_order_size ∧
       |(pmW.symbol_data 0).pos.quantity +
          (pmW.symbol_data 0).pos.pending_quantity + 5| ≤
         (pmW.symbol_data 0).risk.max_positions ∧
       ((|(pmW.symbol_data 0).pos.quantity +
           (pmW.symbol_data 0).pos.pending_quantity + 5| : Int) : ℚ) * 10 ≤
         (pmW.symbol_data 0).risk.max_notional ∧
       ((5 : Int) ≤ 0 ∨ ((5 : Int) : ℚ) * 10 ≤ pmW.cash))) :=
  ⟨by decide, can_execute_iff pmW 0 5 10 (by decide)⟩

/-- C5: a valid signal rejected by the risk gate returns normally having
incremented only the reject count: no order is emitted, and pending
quantity, cash, order count and the order-id counter are all untouched. -/
theorem on_signal_reject {N : Nat} (pm : PortfolioManager N) (symbol_id : Nat)
    (quantity : Int) (price : ℚ) (ts : Nat)
    (hsid : symbol_id < N) (hp : 0 < price) (hq : quantity ≠ 0)
    (hrej : PortfolioManager.can_execute pm symbol_id quantity price = false) :
    PortfolioManager.on_signal pm symbol_id quantity price ts =
      .ok ({ pm with reject_count := pm.reject_count + 1 }, []) := by
  unfold PortfolioManager.on_signal
  rw [if_neg (by simp [PortfolioManager.is_valid_symbol, hsid]),
    if_neg (not_le.mpr hp), if_neg hq, if_pos (by simp [hrej])]

/-- Witness for C5: default limits, order of 200 exceeds max_order_size 100. -/
theorem on_signal_reject_witness :
    ((0 : Nat) < 4 ∧ (0 : ℚ) < 50 ∧ (200 : Int) ≠ 0 ∧
      PortfolioManager.can_execute pmW 0 200 50 = false) ∧
    PortfolioManager.on_signal pmW 0 200 50 7 =
      .ok ({ pmW with reject_count := pmW.reject_count + 1 }, []) :=
  ⟨⟨by decide, by decide, by decide, by decide⟩,
   on_signal_reject pmW 0 200 50 7 (by decide) (by decide) (by decide) (by decide)⟩

/-- C6: the dispatcher's `handle_event` reacts to a Market event by calling
exactly three handlers, in order: the portfolio marks the price, the
execution engine re-evaluates resting orders, the strategy reacts. -/
theorem handle_event_market_calls (m : market_event) :
    handle_event_calls (.market m) =
      [.portfolio_on_market, .exec_on_market, .strategy_on_market] := rfl

/-- FIFO invariant of any interleaving starting from any state. -/
theorem run_ops_fifo_aux (ops : List queue_op) (st : queue_run) :
    (ops.foldl run_op st).popped ++ (ops.foldl run_op st).q.queue =
      st.popped ++ st.q.queue ++ pushed_events ops := by
  induction ops generalizing st with
  | nil => simp [pushed_events]
  | cons op rest ih =>
    cases op with
    | push ev =>
      rw [List.foldl_cons, ih]
      simp [run_op, event_queue.push, pushed_events, List.filterMap_cons]
    | pop =>
      rw [List.foldl_cons, ih]
      obtain ⟨⟨l⟩, popped, raised⟩ := st
      cases l with
      | nil => simp [run_op, event_queue.pop, pushed_events]
      | cons e restq => simp [run_op, event_queue.pop, pushed_events]

/-- C7: over every interleaving of pushes and pops, the successfully popped
events followed by the remaining queue equal the pushed events in push
order (each pop removes the oldest un-popped event), a pop on an empty
queue fails with `QueueEmpty`, and a pop on a non-empty queue returns and
removes the head. -/
theorem event_queue_fifo :
    (∀ ops : List queue_op,
      (run_ops ops).popped ++ (run_ops ops).q.queue = pushed_events ops)
    ∧ (∀ q : event_queue, q.queue = [] →
        q.pop = .error .QueueEmpty)
    ∧ (∀ (e : event) (rest : List event),
        event_queue.pop ⟨e :: rest⟩ = .ok (e, ⟨rest⟩)) := by
  refine ⟨fun ops => ?_, fun q hq => ?_, fun e rest => rfl⟩
  · rw [run_ops, run_ops_fifo_aux]
    simp
  · obtain ⟨l⟩ := q
    cases hq
    rfl

/-- Witness for C7 at a concrete interleaving and the empty queue. -/
theorem event_queue_fifo_witness :
    ((run_ops [.push (.signal ⟨⟩), .pop, .pop, .push (.signal ⟨⟩)]).popped ++
      (run_ops [.push (.signal ⟨⟩), .pop, .pop, .push (.signal ⟨⟩)]).q.queue =
      pushed_events [.push (.signal ⟨⟩), .pop, .pop, .push (.signal ⟨⟩)]) ∧
    (⟨[]⟩ : event_queue).pop = .error .QueueEmpty ∧
    event_queue.pop ⟨[.signal ⟨⟩]⟩ = .ok (.signal ⟨⟩, ⟨[]⟩) :=
  ⟨event_queue_fifo.1 _, event_queue_fifo.2.1 ⟨[]⟩ rfl, event_queue_fifo.2.2 (.signal ⟨⟩) []⟩

/-- C10: for a symbol id at or beyond `MAX_SYMBOLS`, `has_position` simply
returns false, while `get_position`, `get_unrealized_pnl`,
`get_risk_limit`, `set_risk_limit`, `on_fill`, `on_signal` and
`on_market_data` all throw the out-of-range error. -/
theorem has_position_vs_throwing_accessors {N : Nat} (pm : PortfolioManager N)
    (symbol_id : Nat) (h : N ≤ symbol_id) :
    pm.has_position symbol_id = false
    ∧ pm.get_position symbol_id = .error .OutOfRange
    ∧ pm.get_unrealized_pnl symbol_id = .error .OutOfRange
    ∧ pm.get_risk_limit symbol_id = .error .OutOfRange
    ∧ (∀ limit : RiskLimits, pm.set_risk_limit symbol_id limit = .error .OutOfRange)
    ∧ (∀ (quantity : Int) (price : ℚ),
        pm.on_fill symbol_id quantity price = .error .OutOfRange)
    ∧ (∀ (quantity : Int) (price : ℚ) (ts : Nat),
        pm.on_signal symbol_id quantity price ts = .error .OutOfRange)
    ∧ (∀ last : ℚ, pm.on_market_data symbol_id last = .error .OutOfRange) := by
  have hv : PortfolioManager.is_valid_symbol N symbol_id = false := by
    simp only [PortfolioManager.is_valid_symbol, decide_eq_false_iff_not]
    omega
  refine ⟨?_, ?_, ?_, ?_, fun limit => ?_, fun qy pr => ?_, fun qy pr ts => ?_,
    fun last => ?_⟩ <;>
    simp [PortfolioManager.has_position, PortfolioManager.get_position,
      PortfolioManager.get_unrealized_pnl, PortfolioManager.get_risk_limit,
      PortfolioManager.set_risk_limit, PortfolioManager.on_fill,
      PortfolioManager.on_signal, PortfolioManager.on_market_data, hv]

/-- Witness for C10 at symbol id 7 on a four-symbol manager. -/
theorem has_position_vs_throwing_accessors_witness :
    (4 ≤ 7) ∧
    pmW.has_position 7 = false ∧
    pmW.get_position 7 = .error .OutOfRange ∧
    pmW.get_unrealized_pnl 7 = .error .OutOfRange ∧
    pmW.get_risk_limit 7 = .error .OutOfRange ∧
    pmW.set_risk_limit 7 RiskLimits.init = .error .OutOfRange ∧
    pmW.on_fill 7 3 10 = .error .OutOfRange ∧
    pmW.on_signal 7 3 10 0 = .error .OutOfRange ∧
    pmW.on_market_data 7 10 = .error .OutOfRange :=
  ⟨by decide,
   (has_position_vs_throwing_accessors pmW 7 (by decide)).1,
   (has_position_vs_throwing_accessors pmW 7 (by decide)).2.1,
   (has_position_vs_throwing_accessors pmW 7 (by decide)).2.2.1,
   (has_position_vs_throwing_accessors pmW 7 (by decide)).2.2.2.1,
   (has_position_vs_throwing_accessors pmW 7 (by decide)).2.2.2.2.1 RiskLimits.init,
   (has_position_vs_throwing_accessors pmW 7 (by decide)).2.2.2.2.2.1 3 10,
   (has_position_vs_throwing_accessors pmW 7 (by decide)).2.2.2.2.2.2.1 3 10 0,
   (has_position_vs_throwing_accessors pmW 7 (by decide)).2.2.2.2.2.2.2 10⟩

end QuantEngine

namespace QuantEngine

/-- Reduction of a valid `on_fill` call to its field-level effects: the
position is rewritten by the source's branch-free update (quantity summed,
pending reconciled, VWAP / realized P&L / cost-basis rules applied), cash
moves by the signed notional, the fill count increments and the active bit
tracks whether the new quantity is non-zero. -/
theorem on_fill_ok_spec {N : Nat} (pm : PortfolioManager N) (symbol_id : Nat)
    (quantity : Int) (price : ℚ)
    (hsid : symbol_id < N) (hp : 0 < price) (hq : quantity ≠ 0) :
    ∃ pm', PortfolioManager.on_fill pm symbol_id quantity price = .ok pm' ∧
      pm'.symbol_data symbol_id =
        { pm.symbol_data symbol_id with
          pos :=
          { quantity := (pm.symbol_data symbol_id).pos.quantity + quantity
            pending_quantity :=
              (pm.symbol_data symbol_id).pos.pending_quantity + -quantity
            average_cost :=
              if (decide (((pm.symbol_data symbol_id).pos.quantity < 0) ≠
                    ((pm.symbol_data symbol_id).pos.quantity + quantity < 0)) &&
                  decide ((pm.symbol_data symbol_id).pos.quantity + quantity ≠ 0)) then
                price
              else if decide (((pm.symbol_data symbol_id).pos.quantity < 0) ≠
                  (quantity < 0)) then
                (pm.symbol_data symbol_id).pos.average_cost
              else if (pm.symbol_data symbol_id).pos.quantity + quantity ≠ 0 then
                (((pm.symbol_data symbol_id).pos.quantity : ℚ) *
                    (pm.symbol_data symbol_id).pos.average_cost +
                  (quantity : ℚ) * price) /
                  (((pm.symbol_data symbol_id).pos.quantity + quantity : Int) : ℚ)
              else (pm.symbol_data symbol_id).pos.average_cost
            realized_pnl :=
              (pm.symbol_data symbol_id).pos.realized_pnl +
                ((min |quantity| |(pm.symbol_data symbol_id).pos.quantity| : Int) : ℚ) *
                  (((if 0 < (pm.symbol_data symbol_id).pos.quantity then (1 : Int)
                     else -1) : ℚ) *
                    (price - (pm.symbol_data symbol_id).pos.average_cost)) *
                  (if decide (((pm.symbol_data symbol_id).pos.quantity < 0) ≠
                      (quantity < 0)) then 1 else 0)
            last_price := (pm.symbol_data symbol_id).pos.last_price } } ∧
      pm'.cash = pm.cash - (quantity : ℚ) * price ∧
      pm'.fill_count = pm.fill_count + 1 ∧
      pm'.total_realized_pnl = pm.total_realized_pnl +
        ((min |quantity| |(pm.symbol_data symbol_id).pos.quantity| : Int) : ℚ) *
          (((if 0 < (pm.symbol_data symbol_id).pos.quantity then (1 : Int)
             else -1) : ℚ) *
            (price - (pm.symbol_data symbol_id).pos.average_cost)) *
          (if decide (((pm.symbol_data symbol_id).pos.quantity < 0) ≠
              (quantity < 0)) then 1 else 0) ∧
      pm'.active_positions =
        Function.update pm.active_positions symbol_id
          (decide ((pm.symbol_data symbol_id).pos.quantity + quantity ≠ 0)) ∧
      pm'.order_count = pm.order_count ∧
      pm'.reject_count = pm.reject_count ∧
      pm'.next_order_id = pm.next_order_id ∧
      (∀ j, j ≠ symbol_id → pm'.symbol_data j = pm.symbol_data j) := by
  unfold PortfolioManager.on_fill
  rw [if_neg (by simp [PortfolioManager.is_valid_symbol, hsid]),
    if_neg (not_le.mpr hp), if_neg hq]
  refine ⟨_, rfl, ?_, ?_, ?_, ?_, ?_, ?_, ?_, ?_, ?_⟩ <;>
    simp [PortfolioManager.update_active_status, PortfolioManager.update_position_on_fill,
      PortfolioManager.add_pending, Function.update_same]
  · intro j hj
    simp [Function.update_noteq hj]

end QuantEngine

namespace QuantEngine

/-- C1 counterexample: short 100 at average cost 50, then a clean close
(buy 100 at 45). The realized P&L of 500 is added as the claim says, but
`average_cost` stays at its old value 50 — it is not reset to 0. -/
theorem on_fill_clean_close_counterexample :
    ((pm_short.on_fill 0 100 45).map
        (fun pm => ((pm.symbol_data 0).pos.quantity,
                    (pm.symbol_data 0).pos.average_cost,
                    (pm.symbol_data 0).pos.realized_pnl,
                    pm.has_position 0)))
      = .ok (0, 50, 500, false) ∧ (50 : ℚ) ≠ 0 := by
  constructor
  · norm_num [pm_short, PortfolioManager.on_fill, PortfolioManager.update_position_on_fill,
      PortfolioManager.add_pending, PortfolioManager.update_active_status,
      PortfolioManager.is_valid_symbol, PortfolioManager.has_position,
      SymbolData.init, PositionState.init, RiskLimits.init, Function.update, Except.map]
  · norm_num

/-- C1 (amended): a clean close of a non-zero position (fill of exactly the
opposite signed quantity) adds `closed_qty * (price - avg_cost) * sign(old)`
to realized P&L (also to the portfolio total), brings the quantity to 0 and
marks the position inactive; `average_cost` is left unchanged (it is not
reset to 0). -/
theorem on_fill_clean_close {N : Nat} (pm : PortfolioManager N) (symbol_id : Nat)
    (price : ℚ) (hsid : symbol_id < N) (hp : 0 < price)
    (hold : (pm.symbol_data symbol_id).pos.quantity ≠ 0) :
    ∃ pm', PortfolioManager.on_fill pm symbol_id
        (-(pm.symbol_data symbol_id).pos.quantity) price = .ok pm' ∧
      (pm'.symbol_data symbol_id).pos.quantity = 0 ∧
      (pm'.symbol_data symbol_id).pos.average_cost =
        (pm.symbol_data symbol_id).pos.average_cost ∧
      (pm'.symbol_data symbol_id).pos.realized_pnl =
        (pm.symbol_data symbol_id).pos.realized_pnl +
          ((|(pm.symbol_data symbol_id).pos.quantity| : Int) : ℚ) *
            (price - (pm.symbol_data symbol_id).pos.average_cost) *
            (if 0 < (pm.symbol_data symbol_id).pos.quantity then (1 : ℚ) else -1) ∧
      pm'.total_realized_pnl = pm.total_realized_pnl +
          ((|(pm.symbol_data symbol_id).pos.quantity| : Int) : ℚ) *
            (price - (pm.symbol_data symbol_id).pos.average_cost) *
            (if 0 < (pm.symbol_data symbol_id).pos.quantity then (1 : ℚ) else -1) ∧
      pm'.has_position symbol_id = false := by
  obtain ⟨pm', hok, hsym, hcash, hfc, htot, hact, _, _, _, _⟩ :=
    on_fill_ok_spec pm symbol_id (-(pm.symbol_data symbol_id).pos.quantity) price
      hsid hp (neg_ne_zero.mpr hold)
  set old := (pm.symbol_data symbol_id).pos.quantity with hold_def
  have h0 : old + -old = 0 := by omega
  have hic : decide ((old < 0) ≠ (-old < 0)) = true := by
    rcases lt_or_gt_of_ne hold with h | h
    · have h1 : old < 0 := h
      have h2 : ¬ (-old < 0) := by omega
      simp [h1, h2]
    · have h1 : ¬ (old < 0) := by omega
      have h2 : -old < 0 := by omega
      simp [h1, h2]
  have hmin : min |(-old)| |old| = |old| := by
    rw [abs_neg, min_self]
  have hdelta :
      ((min |(-old)| |old| : Int) : ℚ) *
          (((if 0 < old then (1 : Int) else -1) : ℚ) *
            (price - (pm.symbol_data symbol_id).pos.average_cost)) *
          (if decide ((old < 0) ≠ (-old < 0)) then 1 else 0) =
        ((|old| : Int) : ℚ) *
          (price - (pm.symbol_data symbol_id).pos.average_cost) *
          (if 0 < old then (1 : ℚ) else -1) := by
    rw [hmin, hic]
    by_cases hpos : 0 < old
    · simp only [hpos, if_true, if_pos]
      push_cast
      ring
    · simp only [hpos, if_false]
      push_cast
      ring
  refine ⟨pm', hok, ?_, ?_, ?_, ?_, ?_⟩
  · rw [hsym]
    simpa using h0
  · rw [hsym]
    simp only [h0]
    have hrev : (decide ((old < 0) ≠ ((0 : Int) < 0)) && decide ((0 : Int) ≠ 0)) = false := by
      simp
    simpa [hrev, hic] using rfl
  · rw [hsym]
    exact congrArg (fun z => (pm.symbol_data symbol_id).pos.realized_pnl + z) hdelta
  · rw [htot, hdelta]
  · unfold PortfolioManager.has_position
    rw [hact, Function.update_same]
    simp [h0]

/-- Witness for C1 (amended): short 100 at 50 closed by buying 100 at 45. -/
theorem on_fill_clean_close_witness :
    ((0 : Nat) < 4 ∧ (0 : ℚ) < 45 ∧ (pm_short.symbol_data 0).pos.quantity ≠ 0) ∧
    (∃ pm', PortfolioManager.on_fill pm_short 0
        (-(pm_short.symbol_data 0).pos.quantity) 45 = .ok pm' ∧
      (pm'.symbol_data 0).pos.quantity = 0 ∧
      (pm'.symbol_data 0).pos.average_cost = (pm_short.symbol_data 0).pos.average_cost ∧
      (pm'.symbol_data 0).pos.realized_pnl =
        (pm_short.symbol_data 0).pos.realized_pnl +
          ((|(pm_short.symbol_data 0).pos.quantity| : Int) : ℚ) *
            (45 - (pm_short.symbol_data 0).pos.average_cost) *
            (if 0 < (pm_short.symbol_data 0).pos.quantity then (1 : ℚ) else -1) ∧
      pm'.total_realized_pnl = pm_short.total_realized_pnl +
          ((|(pm_short.symbol_data 0).pos.quantity| : Int) : ℚ) *
            (45 - (pm_short.symbol_data 0).pos.average_cost) *
            (if 0 < (pm_short.symbol_data 0).pos.quantity then (1 : ℚ) else -1) ∧
      pm'.has_position 0 = false) :=
  ⟨⟨by decide, by decide, by decide⟩,
   on_fill_clean_close pm_short 0 45 (by decide) (by decide) (by decide)⟩

end QuantEngine

namespace QuantEngine

/-- C4: an opposing fill strictly larger in magnitude than the standing
position (a flip) realizes `|old| * (price - avg_cost) * sign(old)` (also
added to the portfolio total), resets `average_cost` to the fill price, and
leaves quantity `old + signed_qty`, which has the opposite sign to `old`. -/
theorem on_fill_flip {N : Nat} (pm : PortfolioManager N) (symbol_id : Nat)
    (quantity : Int) (price : ℚ) (hsid : symbol_id < N) (hp : 0 < price)
    (hopp : (pm.symbol_data symbol_id).pos.quantity * quantity < 0)
    (hmag : |(pm.symbol_data symbol_id).pos.quantity| < |quantity|) :
    ∃ pm', PortfolioManager.on_fill pm symbol_id quantity price = .ok pm' ∧
      (pm'.symbol_data symbol_id).pos.quantity =
        (pm.symbol_data symbol_id).pos.quantity + quantity ∧
      (0 < (pm.symbol_data symbol_id).pos.quantity →
        (pm'.symbol_data symbol_id).pos.quantity < 0) ∧
      ((pm.symbol_data symbol_id).pos.quantity < 0 →
        0 < (pm'.symbol_data symbol_id).pos.quantity) ∧
      (pm'.symbol_data symbol_id).pos.average_cost = price ∧
      (pm'.symbol_data symbol_id).pos.realized_pnl =
        (pm.symbol_data symbol_id).pos.realized_pnl +
          ((|(pm.symbol_data symbol_id).pos.quantity| : Int) : ℚ) *
            (price - (pm.symbol_data symbol_id).pos.average_cost) *
            (if 0 < (pm.symbol_data symbol_id).pos.quantity then (1 : ℚ) else -1) ∧
      pm'.total_realized_pnl = pm.total_realized_pnl +
          ((|(pm.symbol_data symbol_id).pos.quantity| : Int) : ℚ) *
            (price - (pm.symbol_data symbol_id).pos.average_cost) *
            (if 0 < (pm.symbol_data symbol_id).pos.quantity then (1 : ℚ) else -1) := by
  have hq : quantity ≠ 0 := by
    intro h
    rw [h, mul_zero] at hopp
    exact lt_irrefl 0 hopp
  obtain ⟨pm', hok, hsym, hcash, hfc, htot, hact, _, _, _, _⟩ :=
    on_fill_ok_spec pm symbol_id quantity price hsid hp hq
  set old := (pm.symbol_data symbol_id).pos.quantity with hold_def
  have hmin : min |quantity| |old| = |old| := min_eq_right (le_of_lt hmag)
  rcases mul_neg_iff.mp hopp with ⟨h1, h2⟩ | ⟨h1, h2⟩
  · -- long position flipped by a larger sell: 0 < old, quantity < 0
    have hov : old < -quantity := by
      have := hmag
      rwa [abs_of_pos h1, abs_of_neg h2] at this
    have hnew : old + quantity < 0 := by omega
    have hne : old + quantity ≠ 0 := by omega
    have hno : ¬ old < 0 := by omega
    have hic : decide ((old < 0) ≠ (quantity < 0)) = true := by
      simp [hno, h2]
    have hdelta :
        ((min |quantity| |old| : Int) : ℚ) *
            (((if 0 < old then (1 : Int) else -1) : ℚ) *
              (price - (pm.symbol_data symbol_id).pos.average_cost)) *
            (if decide ((old < 0) ≠ (quantity < 0)) then 1 else 0) =
          ((|old| : Int) : ℚ) *
            (price - (pm.symbol_data symbol_id).pos.average_cost) *
            (if 0 < old then (1 : ℚ) else -1) := by
      rw [hmin, hic]
      simp only [h1, if_true, if_pos]
      push_cast
      ring
    refine ⟨pm', hok, ?_, ?_, ?_, ?_, ?_, ?_⟩
    · rw [hsym]
    · intro _
      rw [hsym]
      exact hnew
    · intro hcon
      exact absurd hcon hno
    · rw [hsym]
      simp [hno, hnew, hne]
    · rw [hsym]
      exact congrArg (fun z => (pm.symbol_data symbol_id).pos.realized_pnl + z) hdelta
    · rw [htot, hdelta]
  · -- short position flipped by a larger buy: old < 0, 0 < quantity
    have hov : -old < quantity := by
      have := hmag
      rwa [abs_of_neg h1, abs_of_pos h2] at this
    have hnew : 0 < old + quantity := by omega
    have hne : old + quantity ≠ 0 := by omega
    have hnn : ¬ old + quantity < 0 := by omega
    have hnq : ¬ quantity < 0 := by omega
    have hnpos : ¬ 0 < old := by omega
    have hic : decide ((old < 0) ≠ (quantity < 0)) = true := by
      simp [h1, hnq]
    have hdelta :
        ((min |quantity| |old| : Int) : ℚ) *
            (((if 0 < old then (1 : Int) else -1) : ℚ) *
              (price - (pm.symbol_data symbol_id).pos.average_cost)) *
            (if decide ((old < 0) ≠ (quantity < 0)) then 1 else 0) =
          ((|old| : Int) : ℚ) *
            (price - (pm.symbol_data symbol_id).pos.average_cost) *
            (if 0 < old then (1 : ℚ) else -1) := by
      rw [hmin, hic]
      simp only [hnpos, if_false]
      push_cast
      ring
    refine ⟨pm', hok, ?_, ?_, ?_, ?_, ?_, ?_⟩
    · rw [hsym]
    · intro hcon
      exact absurd hcon hnpos
    · intro _
      rw [hsym]
      exact hnew
    · rw [hsym]
      simp [h1, hnn, hne]
    · rw [hsym]
      exact congrArg (fun z => (pm.symbol_data symbol_id).pos.realized_pnl + z) hdelta
    · rw [htot, hdelta]

/-- Witness for C4: short 100 at 50, buy 150 at 45 — a flip. -/
theorem on_fill_flip_witness :
    ((0 : Nat) < 4 ∧ (0 : ℚ) < 45 ∧
      (pm_short.symbol_data 0).pos.quantity * 150 < 0 ∧
      |(pm_short.symbol_data 0).pos.quantity| < |(150 : Int)|) ∧
    (∃ pm', PortfolioManager.on_fill pm_short 0 150 45 = .ok pm' ∧
      (pm'.symbol_data 0).pos.quantity = (pm_short.symbol_data 0).pos.quantity + 150 ∧
      (0 < (pm_short.symbol_data 0).pos.quantity →
        (pm'.symbol_data 0).pos.quantity < 0) ∧
      ((pm_short.symbol_data 0).pos.quantity < 0 →
        0 < (pm'.symbol_data 0).pos.quantity) ∧
      (pm'.symbol_data 0).pos.average_cost = 45 ∧
      (pm'.symbol_data 0).pos.realized_pnl =
        (pm_short.symbol_data 0).pos.realized_pnl +
          ((|(pm_short.symbol_data 0).pos.quantity| : Int) : ℚ) *
            (45 - (pm_short.symbol_data 0).pos.average_cost) *
            (if 0 < (pm_short.symbol_data 0).pos.quantity then (1 : ℚ) else -1) ∧
      pm'.total_realized_pnl = pm_short.total_realized_pnl +
          ((|(pm_short.symbol_data 0).pos.quantity| : Int) : ℚ) *
            (45 - (pm_short.symbol_data 0).pos.average_cost) *
            (if 0 < (pm_short.symbol_data 0).pos.quantity then (1 : ℚ) else -1)) :=
  ⟨⟨by decide, by decide, by decide, by decide⟩,
   on_fill_flip pm_short 0 150 45 (by decide) (by decide) (by decide) (by decide)⟩

end QuantEngine

namespace QuantEngine

/-- C3: `emit_fill` adds `filled_qty` to the stored cumulative filled
quantity (seeding a fresh state with filled = 0 and avg = 0 when the id is
unknown), pushes the fill event recording the amount as-is, and whenever
the cumulative total reaches or exceeds the order's quantity — over-fills
included — the order is marked inactive (moved to the historical ledger). -/
theorem emit_fill_accumulates_and_closes (ord : order_event) (fq : Int)
    (p : ℚ) (q : order_queue) (queue : event_queue) (ts : Int)
    (hfq : 0 ≤ fq)
    (hWF : count_id ord.order_id q.bids + count_id ord.order_id q.asks ≤ 1)
    (hord : ∀ st, q.get ord.order_id = some st → st.order = ord) :
    (emit_fill ord fq p q queue ts).2 =
      queue.push (.fill ⟨ord.symbol, ord.order_id, fq, ord.quantity,
        ord.is_buy, p, ord, ts⟩)
    ∧ (ord.quantity ≤ q.stored_filled ord.order_id + fq →
        (emit_fill ord fq p q queue ts).1.get ord.order_id = none ∧
        ∃ st, (emit_fill ord fq p q queue ts).1.historical_ledger =
            q.historical_ledger ++ [st] ∧
          st.filled_qty = q.stored_filled ord.order_id + fq ∧ st.order = ord)
    ∧ (q.stored_filled ord.order_id + fq < ord.quantity →
        ∃ st, (emit_fill ord fq p q queue ts).1.get ord.order_id = some st ∧
          st.filled_qty = q.stored_filled ord.order_id + fq ∧ st.order = ord ∧
          (emit_fill ord fq p q queue ts).1.historical_ledger =
            q.historical_ledger) := by
  cases hg : q.get ord.order_id with
  | none =>
    obtain ⟨h1, h2, h3⟩ := emit_fill_spec ord fq p q queue ts
      (order_state.of_order ord) (Or.inl ⟨hg, rfl⟩) hWF
    have hprev : q.stored_filled ord.order_id = 0 := by
      simp [order_queue.stored_filled, hg]
    rw [hprev]
    refine ⟨h1, fun hc => ?_, fun ho => ?_⟩
    · have hc' : (order_state.of_order ord).order.quantity ≤
          (order_state.of_order ord).filled_qty + fq := by
        simpa [order_state.of_order] using hc
      obtain ⟨hga, hl⟩ := h2 hc'
      exact ⟨hga, ⟨_, hl, by simp [order_state.of_order], rfl⟩⟩
    · have ho' : (order_state.of_order ord).filled_qty + fq <
          (order_state.of_order ord).order.quantity := by
        simpa [order_state.of_order] using ho
      obtain ⟨hga, hl⟩ := h3 ho'
      exact ⟨_, hga, by simp [order_state.of_order], rfl, hl⟩
  | some st0 =>
    have hordeq : st0.order = ord := hord st0 hg
    obtain ⟨h1, h2, h3⟩ := emit_fill_spec ord fq p q queue ts st0 (Or.inr hg) hWF
    have hprev : q.stored_filled ord.order_id = st0.filled_qty := by
      simp [order_queue.stored_filled, hg]
    rw [hprev]
    refine ⟨h1, fun hc => ?_, fun ho => ?_⟩
    · obtain ⟨hga, hl⟩ := h2 (by rw [hordeq]; exact hc)
      exact ⟨hga, ⟨_, hl, rfl, hordeq⟩⟩
    · obtain ⟨hga, hl⟩ := h3 (by rw [hordeq]; exact ho)
      exact ⟨_, hga, rfl, hordeq, hl⟩

/-- Witness for C3: an over-fill of 15 against a ten-unit order on an empty
store — accepted, closed, and recorded as-is. -/
theorem emit_fill_accumulates_and_closes_witness :
    ((0 : Int) ≤ 15 ∧
      count_id oevW.order_id order_queue.init.bids +
        count_id oevW.order_id order_queue.init.asks ≤ 1) ∧
    ((emit_fill oevW 15 100 order_queue.init ⟨[]⟩ 9).2 =
      event_queue.push ⟨[]⟩ (.fill ⟨oevW.symbol, oevW.order_id, 15, oevW.quantity,
        oevW.is_buy, 100, oevW, 9⟩)
    ∧ (oevW.quantity ≤ order_queue.init.stored_filled oevW.order_id + 15 →
        (emit_fill oevW 15 100 order_queue.init ⟨[]⟩ 9).1.get oevW.order_id = none ∧
        ∃ st, (emit_fill oevW 15 100 order_queue.init ⟨[]⟩ 9).1.historical_ledger =
            order_queue.init.historical_ledger ++ [st] ∧
          st.filled_qty = order_queue.init.stored_filled oevW.order_id + 15 ∧
          st.order = oevW)
    ∧ (order_queue.init.stored_filled oevW.order_id + 15 < oevW.quantity →
        ∃ st, (emit_fill oevW 15 100 order_queue.init ⟨[]⟩ 9).1.get oevW.order_id =
            some st ∧
          st.filled_qty = order_queue.init.stored_filled oevW.order_id + 15 ∧
          st.order = oevW ∧
          (emit_fill oevW 15 100 order_queue.init ⟨[]⟩ 9).1.historical_ledger =
            order_queue.init.historical_ledger)) :=
  ⟨⟨by decide, by decide⟩,
   emit_fill_accumulates_and_closes oevW 15 100 order_queue.init ⟨[]⟩ 9
     (by decide) (by decide) (fun st h => by cases h)⟩

/-- C9: a zero-quantity `emit_fill` against a live (not yet full) order
still pushes exactly one fill event carrying `filled_qty = 0`, leaves the
stored cumulative filled quantity unchanged, and resets the stored average
fill price to 0 whenever the cumulative total is not positive. -/
theorem emit_fill_zero_quantity (ord : order_event) (p : ℚ) (q : order_queue)
    (queue : event_queue) (ts : Int)
    (hWF : count_id ord.order_id q.bids + count_id ord.order_id q.asks ≤ 1)
    (hord : ∀ st, q.get ord.order_id = some st → st.order = ord)
    (hlive : q.stored_filled ord.order_id < ord.quantity) :
    (emit_fill ord 0 p q queue ts).2 =
      queue.push (.fill ⟨ord.symbol, ord.order_id, 0, ord.quantity,
        ord.is_buy, p, ord, ts⟩)
    ∧ ∃ st, (emit_fill ord 0 p q queue ts).1.get ord.order_id = some st ∧
        st.filled_qty = q.stored_filled ord.order_id ∧
        (q.stored_filled ord.order_id ≤ 0 → st.avg_fill_price = 0) := by
  cases hg : q.get ord.order_id with
  | none =>
    obtain ⟨h1, _, h3⟩ := emit_fill_spec ord 0 p q queue ts
      (order_state.of_order ord) (Or.inl ⟨hg, rfl⟩) hWF
    have hprev : q.stored_filled ord.order_id = 0 := by
      simp [order_queue.stored_filled, hg]
    rw [hprev] at hlive ⊢
    obtain ⟨hga, _⟩ := h3 (by simpa [order_state.of_order] using hlive)
    refine ⟨h1, ⟨_, hga, rfl, fun _ => ?_⟩⟩
    simp [emit_avg, order_state.of_order]
  | some st0 =>
    have hordeq : st0.order = ord := hord st0 hg
    obtain ⟨h1, _, h3⟩ := emit_fill_spec ord 0 p q queue ts st0 (Or.inr hg) hWF
    have hprev : q.stored_filled ord.order_id = st0.filled_qty := by
      simp [order_queue.stored_filled, hg]
    rw [hprev] at hlive ⊢
    obtain ⟨hga, _⟩ := h3 (by rw [hordeq]; simpa using hlive)
    refine ⟨h1, ⟨_, hga, by simp, fun hle => ?_⟩⟩
    simp only [emit_avg]
    rw [if_neg (by omega)]

/-- Witness for C9: zero fill against a part-filled live order. The store
holds order `o1` with 4 of 10 filled; the zero fill leaves it at 4, and a
fresh unknown order gets average 0. -/
theorem emit_fill_zero_quantity_witness :
    ((count_id oevW.order_id order_queue.init.bids +
        count_id oevW.order_id order_queue.init.asks ≤ 1) ∧
      order_queue.init.stored_filled oevW.order_id < oevW.quantity) ∧
    ((emit_fill oevW 0 55 order_queue.init ⟨[]⟩ 10).2 =
      event_queue.push ⟨[]⟩ (.fill ⟨oevW.symbol, oevW.order_id, 0, oevW.quantity,
        oevW.is_buy, 55, oevW, 10⟩)
    ∧ ∃ st, (emit_fill oevW 0 55 order_queue.init ⟨[]⟩ 10).1.get oevW.order_id =
          some st ∧
        st.filled_qty = order_queue.init.stored_filled oevW.order_id ∧
        (order_queue.init.stored_filled oevW.order_id ≤ 0 →
          st.avg_fill_price = 0)) :=
  ⟨⟨by decide, by decide⟩,
   emit_fill_zero_quantity oevW 55 order_queue.init ⟨[]⟩ 10
     (by decide) (fun st h => by cases h) (by decide)⟩

end QuantEngine

namespace QuantEngine

/-- Unconditional shape of `emplace` for a buy state: defensive same-side
erase, then ordered insert into the bids. -/
theorem order_queue.emplace_eq_of_buy (q : order_queue) (s : order_state)
    (hb : s.order.is_buy = true) :
    q.emplace s = { q with
      bids := multiset_insert bid_cmp s (erase_first_id s.order.order_id q.bids) } := by
  unfold order_queue.emplace
  rw [if_pos hb]

/-- Unconditional shape of `emplace` for a sell state: defensive same-side
erase, then ordered insert into the asks. -/
theorem order_queue.emplace_eq_of_sell (q : order_queue) (s : order_state)
    (hb : ¬ s.order.is_buy = true) :
    q.emplace s = { q with
      asks := multiset_insert ask_cmp s (erase_first_id s.order.order_id q.asks) } := by
  unfold order_queue.emplace
  rw [if_neg hb]

/-- C8 counterexample: an ask with id `X` is live; `emplace` of a bid with
the same id `X` erases nothing (the defensive erase only checks the side
selected by the new order's buy flag), so afterwards both sides hold a live
entry with id `X` — two live entries, not exactly one. -/
theorem emplace_cross_side_counterexample :
    askevW.order_id = "X" ∧ bidevW.order_id = "X" ∧
    count_id "X"
        (((order_queue.init.emplace (order_state.of_order askevW)).emplace
            (order_state.of_order bidevW)).bids ++
          ((order_queue.init.emplace (order_state.of_order askevW)).emplace
            (order_state.of_order bidevW)).asks) = 2 ∧
    count_id "X"
        (((order_queue.init.emplace (order_state.of_order askevW)).emplace
            (order_state.of_order bidevW)).bids ++
          ((order_queue.init.emplace (order_state.of_order askevW)).emplace
            (order_state.of_order bidevW)).asks) ≠ 1 := by
  refine ⟨rfl, rfl, rfl, ?_⟩
  decide

/-- C8 (amended): on the side selected by the state's buy flag, `emplace`
first erases an existing entry with the same order id, so that side ends
with exactly one live entry under the id (an entry with the same id on the
opposite side is not touched), and `emplace(s); emplace(s)` leaves the
store equal to a single `emplace(s)`. -/
theorem emplace_same_side_idempotent (q : order_queue) (s : order_state)
    (h : count_id s.order.order_id
      (if s.order.is_buy then q.bids else q.asks) ≤ 1) :
    count_id s.order.order_id
      (if s.order.is_buy then (q.emplace s).bids else (q.emplace s).asks) = 1
    ∧ (q.emplace s).emplace s = q.emplace s := by
  by_cases hb : s.order.is_buy = true
  · rw [if_pos hb] at h
    have hnothas : has_id s.order.order_id
        (erase_first_id s.order.order_id q.bids) = false :=
      not_has_erase_of_count_le_one h
    have e1 := order_queue.emplace_eq_of_buy q s hb
    constructor
    · rw [if_pos hb, e1]
      show count_id _ (multiset_insert _ _ _) = 1
      rw [count_id_insert, count_id_eq_zero_iff.mpr hnothas, id_matches_self]
      rfl
    · rw [e1, order_queue.emplace_eq_of_buy _ s hb]
      show ({ q with
          bids := multiset_insert bid_cmp s (erase_first_id s.order.order_id
            (multiset_insert bid_cmp s (erase_first_id s.order.order_id q.bids))) } :
          order_queue) =
        { q with
          bids := multiset_insert bid_cmp s (erase_first_id s.order.order_id q.bids) }
      rw [erase_first_id_insert hnothas id_matches_self]
  · rw [if_neg hb] at h
    have hnothas : has_id s.order.order_id
        (erase_first_id s.order.order_id q.asks) = false :=
      not_has_erase_of_count_le_one h
    have e1 := order_queue.emplace_eq_of_sell q s hb
    constructor
    · rw [if_neg hb, e1]
      show count_id _ (multiset_insert _ _ _) = 1
      rw [count_id_insert, count_id_eq_zero_iff.mpr hnothas, id_matches_self]
      rfl
    · rw [e1, order_queue.emplace_eq_of_sell _ s hb]
      show ({ q with
          asks := multiset_insert ask_cmp s (erase_first_id s.order.order_id
            (multiset_insert ask_cmp s (erase_first_id s.order.order_id q.asks))) } :
          order_queue) =
        { q with
          asks := multiset_insert ask_cmp s (erase_first_id s.order.order_id q.asks) }
      rw [erase_first_id_insert hnothas id_matches_self]

/-- Witness for C8 (amended): re-seeding the same buy order twice on an
empty store. -/
theorem emplace_same_side_idempotent_witness :
    (count_id (order_state.of_order oevW).order.order_id
      (if (order_state.of_order oevW).order.is_buy then order_queue.init.bids
       else order_queue.init.asks) ≤ 1) ∧
    (count_id (order_state.of_order oevW).order.order_id
      (if (order_state.of_order oevW).order.is_buy then
        (order_queue.init.emplace (order_state.of_order oevW)).bids
       else (order_queue.init.emplace (order_state.of_order oevW)).asks) = 1
    ∧ (order_queue.init.emplace (order_state.of_order oevW)).emplace
        (order_state.of_order oevW) =
      order_queue.init.emplace (order_state.of_order oevW)) :=
  ⟨by decide,
   emplace_same_side_idempotent order_queue.init (order_state.of_order oevW)
     (by decide)⟩

end QuantEngine
